import Mathlib

/-!
Verification of the TabTidy bookmark cleaner (src/tabtidy.py) against its
natural-language specification.

The development shallowly embeds the parts of `tabtidy.py` that the claims
depend on:

* `checkUrl` embeds `LinkTidy.check_url` (lines 102-204): URL normalisation,
  format check, safety check, prohibited-content check, and the network probe.
  The network is abstracted as a pure oracle `Oracle : String → ProbeOutcome`
  assigning one outcome to each probed URL; every `requests` exception that the
  source handles is one `ProbeOutcome` constructor.
* `isUnsafeDomain` embeds `LinkTidy._is_unsafe_domain` (lines 69-100); the
  behaviour of Python's `ipaddress` module on dotted-quad IPv4 literals is
  modelled by `parseIPv4` / `unsafeIPv4` following the CPython implementation.
* `Node` is the abstract bookmark tree of the spec (§3/§6): a `dt` holding an
  `a` tag becomes `Node.link`, a `dt` holding an `h3` heading plus a nested
  `dl` container becomes `Node.folder`; the main `dl` under `body` is the
  root `List Node`, so the elements of that root list are exactly the
  top-level anchor folders/links of the source's skip test (line 314).
* `processBookmarks` embeds `LinkTidy.process_bookmarks` (lines 206-285) and
  `removeEmptyFolders` embeds `LinkTidy.remove_empty_folders` (lines 287-368).
* `cleanBookmarks` / `processExitCode` embed `LinkTidy.clean_bookmarks`
  (lines 370-431) and `main` (lines 434-487), with file reading and document
  parsing abstracted as `Except` values.

String operations are implemented over `List Char` (Python `str` methods
`startswith`, `in`, `lower`, `split`, `replace`, `isdigit` restricted to
ASCII digits, which is what URL hosts and the scanned keywords use) so that
every definition evaluates by kernel reduction.
-/

/-- Boolean prefix test on character lists; `prefixOfB p s` models
`s.startswith(p)` on the underlying characters. -/
def prefixOfB : List Char → List Char → Bool
  | [], _ => true
  | _ :: _, [] => false
  | a :: as, b :: bs => (a == b) && prefixOfB as bs

/-- Boolean infix (substring) test on character lists. -/
def infixOfB (needle : List Char) : List Char → Bool
  | [] => needle.isEmpty
  | c :: t => prefixOfB needle (c :: t) || infixOfB needle t

/-- Python's `needle in hay` substring test. -/
def containsSub (hay needle : String) : Bool := infixOfB needle.data hay.data

/-- Python's `s.startswith(pre)`. -/
def startsWithB (s pre : String) : Bool := prefixOfB pre.data s.data

/-- ASCII lower-casing of one character (Python `str.lower` restricted to the
ASCII range, which covers every keyword the source compares against). -/
def asciiLower (c : Char) : Char :=
  if 'A' ≤ c && c ≤ 'Z' then Char.ofNat (c.toNat + 32) else c

/-- Python's `s.lower()` (ASCII). -/
def lowerS (s : String) : String := String.mk (s.data.map asciiLower)

/-- ASCII digit test; models Python `str.isdigit` on the ASCII inputs that
IPv4 host literals consist of. -/
def isAsciiDigit (c : Char) : Bool := '0' ≤ c && c ≤ '9'

/-- Python's `s.split('.')` on the underlying characters: the maximal runs
between dots, with empty runs kept (so `"a..b"` gives `["a", "", "b"]`). -/
def splitDots : List Char → List (List Char)
  | [] => [[]]
  | c :: rest =>
    match splitDots rest with
    | [] => if c = '.' then [[], []] else [[c]]
    | p :: ps => if c = '.' then [] :: p :: ps else (c :: p) :: ps

/-- Decimal value of a digit run. -/
def digitsToNat (cs : List Char) : Nat :=
  cs.foldl (fun n c => 10 * n + (c.toNat - 48)) 0

/-- One dotted-quad component, following CPython's
`IPv4Address._parse_octet`: 1-3 ASCII digits, no leading zero, value ≤ 255. -/
def parseOctet (cs : List Char) : Option Nat :=
  if cs.isEmpty then none
  else if 3 < cs.length then none
  else if !(cs.all isAsciiDigit) then none
  else if 1 < cs.length && cs.head? = some '0' then none
  else if digitsToNat cs ≤ 255 then some (digitsToNat cs) else none

/-- Parse a dotted-quad IPv4 literal, modelling
`ipaddress.ip_address(domain)` on the strings the source feeds it (the
source only reaches this call for strings of dots and digits, which can
never be IPv6 literals). `none` models the `ValueError` branch. -/
def parseIPv4 (s : String) : Option (Nat × Nat × Nat × Nat) :=
  match splitDots s.data with
  | [a, b, c, d] =>
    match parseOctet a, parseOctet b, parseOctet c, parseOctet d with
    | some w, some x, some y, some z => some (w, x, y, z)
    | _, _, _, _ => none
  | _ => none

/-- CPython `IPv4Address.is_private`: membership in the module's private
network list (0/8, 10/8, 127/8, 169.254/16, 172.16/12, 192.0.0.0/29,
192.0.0.170/31, 192.0.2/24, 192.168/16, 198.18/15, 198.51.100/24,
203.0.113/24, 240/4, 255.255.255.255/32). -/
def ipv4IsPrivate : Nat × Nat × Nat × Nat → Bool
  | (a, b, c, d) =>
    a = 0 || a = 10 || a = 127 || (a = 169 && b = 254) ||
    (a = 172 && 16 ≤ b && b ≤ 31) ||
    (a = 192 && b = 0 && c = 0 && d ≤ 7) ||
    (a = 192 && b = 0 && c = 0 && (d = 170 || d = 171)) ||
    (a = 192 && b = 0 && c = 2) || (a = 192 && b = 168) ||
    (a = 198 && (b = 18 || b = 19)) || (a = 198 && b = 51 && c = 100) ||
    (a = 203 && b = 0 && c = 113) || 240 ≤ a

/-- CPython `IPv4Address.is_reserved` (240.0.0.0/4). -/
def ipv4IsReserved : Nat × Nat × Nat × Nat → Bool
  | (a, _, _, _) => 240 ≤ a

/-- CPython `IPv4Address.is_loopback` (127.0.0.0/8). -/
def ipv4IsLoopback : Nat × Nat × Nat × Nat → Bool
  | (a, _, _, _) => a = 127

/-- CPython `IPv4Address.is_link_local` (169.254.0.0/16). -/
def ipv4IsLinkLocal : Nat × Nat × Nat × Nat → Bool
  | (a, b, _, _) => a = 169 && b = 254

/-- The disjunction tested at lines 86-91 of the source:
`ip.is_private or ip.is_reserved or ip.is_loopback or ip.is_link_local`. -/
def unsafeIPv4 (q : Nat × Nat × Nat × Nat) : Bool :=
  ipv4IsPrivate q || ipv4IsReserved q || ipv4IsLoopback q || ipv4IsLinkLocal q

/-- The fixed denylist of host substrings (source lines 96-99). -/
def unsafeDomains : List String :=
  ["intranet", "internal", "private", "corp", "local",
   "lan", "home.arpa", "localdomain", "example.com"]

/-- The final `any(unsafe in domain for unsafe in unsafe_domains)` test
(source line 100). -/
def unsafeKeywordHit (domain : String) : Bool :=
  unsafeDomains.any fun kw => containsSub domain kw

/-- The character test underlying `domain.replace('.', '')`: keep everything
that is not a dot. -/
def notDot (c : Char) : Bool := c ≠ '.'

/-- Embedding of `LinkTidy._is_unsafe_domain` (source lines 69-100).
The guard `domain.replace('.', '').isdigit()` becomes a test on the
characters of the domain with dots filtered out; a successful
`ipaddress.ip_address` parse returns the classification directly, a
`ValueError` falls through to the keyword scan. -/
def isUnsafeDomain (domain : String) : Bool :=
  if domain == "localhost" || domain == "127.0.0.1" || containsSub domain "::1" then
    true
  else
    let stripped := domain.data.filter notDot
    if !stripped.isEmpty && stripped.all isAsciiDigit then
      match parseIPv4 domain with
      | some q => unsafeIPv4 q
      | none => unsafeKeywordHit domain
    else unsafeKeywordHit domain

/-- Outcome of the `self.session.get` call in `check_url`: either a final
HTTP status code, or one of the exception classes the source handles
(lines 178-198), or an exception outside `requests.RequestException`
caught by the outer handler (lines 200-204). -/
inductive ProbeOutcome where
  | status (code : Nat)
  | timeout
  | tooManyRedirects
  | sslError
  | connectionError
  | requestException (msg : String)
  | unexpectedError (msg : String)
deriving DecidableEq

/-- The network, abstracted: one fixed outcome per probed URL.  Identical
per-URL probe outcomes across runs is exactly the premise of claims C3/C6. -/
def Oracle : Type := String → ProbeOutcome

/-- One entry of `self.deleted_bookmarks` as appended by
`LinkTidy._add_to_deleted` (source lines 55-67). -/
structure DeletedRecord where
  title : String
  url : String
  reason : String
deriving DecidableEq

/-- Result of one `check_url` call: the (possibly prefixed) URL and validity
flag it returns, plus the deletion records it appended to
`self.deleted_bookmarks` during the call. -/
structure CheckResult where
  url : String
  valid : Bool
  records : List DeletedRecord
deriving DecidableEq

/-- Step 1 of `check_url` (source lines 117-118): prepend `https://` when the
URL does not start with `http://` or `https://`. -/
def normalizeUrl (url : String) : String :=
  if !(startsWithB url "http://" || startsWithB url "https://") then
    "https://" ++ url
  else url

/-- The `scheme` component `urlparse` yields for the URLs `check_url` parses.
Every URL reaching the parse starts with `http://` or `https://` (step 1 ran
first), for which `urlparse` returns the scheme before the `://`; other
strings only arise outside the reachable inputs and map to `""`. -/
def schemeOf (u : String) : String :=
  if startsWithB u "https://" then "https"
  else if startsWithB u "http://" then "http"
  else ""

/-- The `netloc` component `urlparse` yields for `http(s)://`-prefixed URLs:
the text after `//` up to the first `/`, `?` or `#`. -/
def netlocOf (u : String) : String :=
  let rest :=
    if startsWithB u "https://" then u.data.drop 8
    else if startsWithB u "http://" then u.data.drop 7
    else []
  String.mk (rest.takeWhile fun c => c ≠ '/' && c ≠ '?' && c ≠ '#')

/-- `parsed.netloc.split(':')[0]` (source line 129): strip the port. -/
def hostOf (u : String) : String :=
  String.mk ((netlocOf u).data.takeWhile fun c => c ≠ ':')

/-- The prohibited-content keywords (source line 136). -/
def invalidKeywords : List String :=
  ["porn", "xxx", "gambling", "warez", "crack"]

/-- Embedding of `LinkTidy.check_url` (source lines 102-204).  Each early
`return url, False` preceded by `self._add_to_deleted(title, url, reason)`
becomes a `CheckResult` with one record carrying the source's reason string;
the success path carries no record. -/
def checkUrl (o : Oracle) (url title : String) : CheckResult :=
  let u := normalizeUrl url
  if schemeOf u = "" || netlocOf u = "" then
    ⟨u, false, [⟨title, u, "无效的URL格式"⟩]⟩
  else if isUnsafeDomain (hostOf u) then
    ⟨u, false, [⟨title, u, "不安全的目标地址"⟩]⟩
  else if invalidKeywords.any (fun kw => containsSub (lowerS u) kw) then
    ⟨u, false, [⟨title, u, "URL包含不适当内容"⟩]⟩
  else
    match o u with
    | .status code =>
      if 200 ≤ code && code < 400 then ⟨u, true, []⟩
      else ⟨u, false, [⟨title, u, "状态码错误: " ++ Nat.repr code⟩]⟩
    | .timeout => ⟨u, false, [⟨title, u, "请求超时"⟩]⟩
    | .tooManyRedirects => ⟨u, false, [⟨title, u, "重定向次数过多"⟩]⟩
    | .sslError => ⟨u, false, [⟨title, u, "SSL证书验证失败"⟩]⟩
    | .connectionError => ⟨u, false, [⟨title, u, "连接错误"⟩]⟩
    | .requestException msg => ⟨u, false, [⟨title, u, "请求异常: " ++ msg⟩]⟩
    | .unexpectedError msg => ⟨u, false, [⟨title, u, msg⟩]⟩

/-- The validity verdict `check_url` reaches on an already-normalised URL;
it depends only on the normalised URL and the oracle, not on the title. -/
def checkValid (o : Oracle) (u : String) : Bool :=
  if schemeOf u = "" || netlocOf u = "" then false
  else if isUnsafeDomain (hostOf u) then false
  else if invalidKeywords.any (fun kw => containsSub (lowerS u) kw) then false
  else
    match o u with
    | .status code => 200 ≤ code && code < 400
    | _ => false

/-- One write of the fan-in performed by `ThreadPoolExecutor.map`: when the
worker handling request `i` completes, its verdict is stored in the slot for
index `i`, regardless of when it completes. -/
def poolStep (f : Nat → CheckResult) (slots : List (Option CheckResult))
    (i : Nat) : List (Option CheckResult) :=
  slots.set i (some (f i))

/-- Operational model of the bounded worker pool (source lines 242-244):
`order` is the sequence in which the probe tasks complete (any interleaving
the scheduler may produce); each completion fills its own request's slot. -/
def poolRun (f : Nat → CheckResult) (order : List Nat) (n : Nat) :
    List (Option CheckResult) :=
  order.foldl (poolStep f) (List.replicate n none)

/-- `list(executor.map(lambda x: self.check_url(x[0], x[1]), ...))` with
`max_workers = w` and completion order `order`.  The worker count `w` bounds
how many probes are in flight at once and so constrains which completion
orders can arise, but is otherwise inert. -/
def validateAll (w : Nat) (order : List Nat) (o : Oracle)
    (reqs : List (String × String)) : List (Option CheckResult) :=
  let _ := w
  poolRun (fun i => checkUrl o (reqs.getD i ("", "")).1 (reqs.getD i ("", "")).2)
    order reqs.length

/-- The abstract bookmark tree of spec §3: a `dt` containing an `a` tag with
an `href` attribute is a `link` (carrying the stored title string, possibly
empty); a `dt` containing an `h3` heading and a nested `dl` container is a
`folder` over its ordered children.  A whole document is the `List Node` of
the main `dl`'s entries, whose elements are the top-level (anchor) entries. -/
inductive Node where
  | link (title url : String)
  | folder (title : String) (children : List Node)

/-- `a_tag.string if a_tag.string else '无标题'` (source line 231). -/
def effTitle (t : String) : String := if t = "" then "无标题" else t

/-- `soup.find_all('a')` with `(url, title)` extraction (source lines
225-235): all link nodes in document (pre-)order. -/
def collectLinks : List Node → List (String × String)
  | [] => []
  | .link t u :: rest => (u, effTitle t) :: collectLinks rest
  | .folder _ cs :: rest => collectLinks cs ++ collectLinks rest

/-- `BeautifulSoup(str(soup), PARSER)` (source line 222): the fresh copy of
the document that the removal phase mutates. -/
def copyForest : List Node → List Node
  | [] => []
  | .link t u :: rest => .link t u :: copyForest rest
  | .folder t cs :: rest => .folder t (copyForest cs) :: copyForest rest

/-- `valid_urls` (source line 250): the set of raw stored URLs whose check
came back valid.  Modelled as a list, membership being all that is used. -/
def validUrls (o : Oracle) (links : List (String × String)) : List String :=
  (links.filter fun p => (checkUrl o p.1 p.2).valid).map Prod.fst

/-- The keep test of the removal phase (source lines 260-263): a link stays
when its stored URL or its `https://`-prefixed form is in `valid_urls`. -/
def urlKept (valid : List String) (u : String) : Bool :=
  valid.contains u || valid.contains (normalizeUrl u)

/-- The removal loop over the copied document (source lines 252-271): every
link whose URL fails `urlKept` has its parent `dt` decomposed; folders are
left in place with their remaining children. -/
def removeInvalid (valid : List String) : List Node → List Node
  | [] => []
  | .link t u :: rest =>
    if urlKept valid u then .link t u :: removeInvalid valid rest
    else removeInvalid valid rest
  | .folder t cs :: rest =>
    .folder t (removeInvalid valid cs) :: removeInvalid valid rest

/-- `dl.find('a') is not None` (source line 347): does any link occur
anywhere in the given children (recursively)? -/
def hasLinks : List Node → Bool
  | [] => false
  | .link _ _ :: _ => true
  | .folder _ cs :: rest => hasLinks cs || hasLinks rest

/-- `any(sub_dt.find('h3') for sub_dt in dl.find_all('dt', recursive=False))`
(source lines 348-351): is any direct child a folder? -/
def hasSubfolder : List Node → Bool
  | [] => false
  | .link _ _ :: rest => hasSubfolder rest
  | .folder _ _ :: _ => true

/-- One pass of the empty-folder scan applied below the top level (source
lines 334-357).  A candidate folder is decomposed exactly when, at the start
of the pass, it has no link descendant and no direct subfolder; surviving
folders keep their (recursively processed) children.  The source snapshots
the candidate list, then processes it in document order; since a folder with
any descendant folder always has a direct subfolder and thus survives, the
removals of one pass never overlap or disturb a later candidate's subtree,
so the sequential pass equals this simultaneous one. -/
def compactChildren : List Node → List Node
  | [] => []
  | .link t u :: rest => .link t u :: compactChildren rest
  | .folder t cs :: rest =>
    if !hasLinks cs && !hasSubfolder cs then compactChildren rest
    else .folder t (compactChildren cs) :: compactChildren rest

/-- One full pass of `remove_empty_folders` over the document: top-level
entries (whose parent `dl` sits directly under `body`, source lines 313-317)
are skipped as candidates, and only their contents are scanned. -/
def compactPass (ns : List Node) : List Node :=
  ns.map fun n =>
    match n with
    | .link t u => .link t u
    | .folder t cs => .folder t (compactChildren cs)

/-- Number of folder nodes anywhere in the given forest. -/
def foldersIn : List Node → Nat
  | [] => 0
  | .link _ _ :: rest => foldersIn rest
  | .folder _ cs :: rest => 1 + foldersIn cs + foldersIn rest

/-- `folder_count` of one iteration (source lines 309-327): the number of
candidate folders, i.e. every folder that is not a top-level entry. -/
def candCount : List Node → Nat
  | [] => 0
  | .link _ _ :: rest => candCount rest
  | .folder _ cs :: rest => foldersIn cs + candCount rest

/-- The `for iteration in range(3)` loop of `remove_empty_folders` (source
lines 308-360): up to `fuel` passes, breaking when no candidate folders are
found (`if folder_count == 0: break`, lines 327-329).  Returns the processed
document and the number of passes that ran. -/
def removeEmptyFoldersLoop : Nat → List Node → List Node × Nat
  | 0, ns => (ns, 0)
  | fuel + 1, ns =>
    if candCount ns = 0 then (ns, 0)
    else
      let r := removeEmptyFoldersLoop fuel (compactPass ns)
      (r.1, r.2 + 1)

/-- `LinkTidy.remove_empty_folders` (source lines 287-368): three iterations
with early break. -/
def removeEmptyFolders (ns : List Node) : List Node :=
  (removeEmptyFoldersLoop 3 ns).1

/-- Number of passes the source's loop executes. -/
def passCount (ns : List Node) : Nat :=
  (removeEmptyFoldersLoop 3 ns).2

/-- Embedding of `LinkTidy.process_bookmarks` (source lines 206-285).
`failure` models an exception escaping the body and being caught by the
handler at lines 281-285, which returns the untouched input document.
Returns the document object that was passed in (to state that it is not
mutated), the returned document, and the deletion records accumulated by the
`check_url` calls (in request order; the thread pool appends them in
completion order, leaving the count unchanged). -/
def processBookmarks (failure : Bool) (o : Oracle) (soup : List Node) :
    List Node × List Node × List DeletedRecord :=
  if failure then (soup, soup, [])
  else
    let links := collectLinks soup
    let newSoup := copyForest soup
    if links.isEmpty then (soup, newSoup, [])
    else
      let results := links.map fun p => checkUrl o p.1 p.2
      let valid := validUrls o links
      let pruned := removeInvalid valid newSoup
      (soup, removeEmptyFolders pruned, (results.map fun r => r.records).flatten)

/-- Does any link node with the given stored URL occur in the forest? -/
def hasLinkWithUrl (u : String) (ns : List Node) : Bool :=
  (collectLinks ns).any fun p => p.1 == u

/-- The body of the `try` block of `LinkTidy.clean_bookmarks` (source lines
382-425): read the input file, parse the document, process it, and return
the document to be written to the output file together with the accumulated
deletion records.  `readResult` abstracts `open(input_file).read()` (an
`Except.error` is the raised `IOError`), `parseDoc` abstracts
`BeautifulSoup(content, PARSER)` over the file content. -/
def cleanBody (readResult : Except String String)
    (parseDoc : String → Except String (List Node))
    (failure : Bool) (o : Oracle) :
    Except String (List Node × List DeletedRecord) :=
  match readResult with
  | .error e => .error e
  | .ok content =>
    match parseDoc content with
    | .error e => .error e
    | .ok soup =>
      let r := processBookmarks failure o soup
      .ok (r.2.1, r.2.2)

/-- `LinkTidy.clean_bookmarks` (source lines 370-431): the whole body runs
under `try`, and the `except Exception` handler (lines 427-431) logs the
error and returns normally, so a failed run produces no output file
(`none`) but raises nothing. -/
def cleanBookmarks (readResult : Except String String)
    (parseDoc : String → Except String (List Node))
    (failure : Bool) (o : Oracle) :
    Option (List Node × List DeletedRecord) :=
  match cleanBody readResult parseDoc failure o with
  | .ok r => some r
  | .error _ => none

/-- `main` (source lines 434-487): parse the arguments, run
`clean_bookmarks`, and fall off the end.  The result is `Except.error` only
if an exception escapes, which `cleanBookmarks` never produces. -/
def mainRun (readResult : Except String String)
    (parseDoc : String → Except String (List Node))
    (failure : Bool) (o : Oracle) : Except String Unit := do
  let _ := cleanBookmarks readResult parseDoc failure o
  pure ()

/-- The process exit code of `python tabtidy.py ...`: 0 when `main` returns,
1 when an uncaught exception terminates the interpreter. -/
def processExitCode (readResult : Except String String)
    (parseDoc : String → Except String (List Node))
    (failure : Bool) (o : Oracle) : Nat :=
  match mainRun readResult parseDoc failure o with
  | .ok _ => 0
  | .error _ => 1

/-- Failure reasons as named by the specification (§3 `FailureReason`),
restricted to the cases claim C1 mentions. -/
inductive FailureReason where
  | invalidFormat
  | unsafeTarget
  | prohibitedContent
  | badStatus (code : Nat)
deriving DecidableEq

/-- The deletion-reason string the source records for each spec-level
failure reason. -/
def reasonText : FailureReason → String
  | .invalidFormat => "无效的URL格式"
  | .unsafeTarget => "不安全的目标地址"
  | .prohibitedContent => "URL包含不适当内容"
  | .badStatus code => "状态码错误: " ++ Nat.repr code

/-- Claim C1, written out as a verdict function following the claim's own
wording: prefix, then format, then safety, then content, then the GET with
the `[200, 400)` window.  The claim does not speak about transport-failure
outcomes, so those map to `none` (unspecified). -/
def claimVerdict (o : Oracle) (url : String) :
    Option (String × Option FailureReason) :=
  let u :=
    if !(startsWithB url "http://" || startsWithB url "https://") then
      "https://" ++ url
    else url
  if schemeOf u = "" || netlocOf u = "" then some (u, some .invalidFormat)
  else if isUnsafeDomain (hostOf u) then some (u, some .unsafeTarget)
  else if invalidKeywords.any (fun kw => containsSub (lowerS u) kw) then
    some (u, some .prohibitedContent)
  else
    match o u with
    | .status code =>
      if 200 ≤ code && code < 400 then some (u, none)
      else some (u, some (.badStatus code))
    | _ => none

/-- Claim C8's per-pass removal condition, following the claim's wording:
the folder has no link descendants and no non-empty subfolder (a direct
subfolder with no children does not count against removal). -/
def claimPassRemovable (cs : List Node) : Bool :=
  !hasLinks cs &&
    cs.all fun n =>
      match n with
      | .link _ _ => true
      | .folder _ gs => gs.isEmpty

/-- `Pruned ns ms` holds when `ms` arises from `ns` by deleting some nodes
(recursively inside folders) while keeping the surviving siblings in their
original relative order, adding and reordering nothing. -/
inductive Pruned : List Node → List Node → Prop where
  | nil : Pruned [] []
  | drop (n : Node) {l l' : List Node} : Pruned l l' → Pruned (n :: l) l'
  | keepLink (t u : String) {l l' : List Node} :
      Pruned l l' → Pruned (.link t u :: l) (.link t u :: l')
  | keepFolder (t : String) {cs cs' l l' : List Node} :
      Pruned cs cs' → Pruned l l' →
      Pruned (.folder t cs :: l) (.folder t cs' :: l')

/-- Top-level correspondence for claim C5: a link survives unchanged, a
folder survives with the same title (its children may have changed). -/
def sameTop : Node → Node → Prop
  | .link t u, m => m = .link t u
  | .folder t _, m => ∃ cs, m = .folder t cs

def statusOracle (code : Nat) : Oracle := fun _ => .status code

def okParse : String → Except String (List Node) := fun _ => Except.ok []

theorem checkUrl_url (o : Oracle) (url title : String) :
    (checkUrl o url title).url = normalizeUrl url := by
  unfold checkUrl
  dsimp only
  split
  · rfl
  · split
    · rfl
    · split
      · rfl
      · cases o (normalizeUrl url) <;> simp only [] <;> split <;> rfl

theorem checkUrl_valid (o : Oracle) (url title : String) :
    (checkUrl o url title).valid = checkValid o (normalizeUrl url) := by
  unfold checkUrl checkValid
  dsimp only
  split
  · rfl
  · split
    · rfl
    · split
      · rfl
      · cases o (normalizeUrl url) <;> simp only [] <;> try rfl
        split <;> rename_i hc <;> simp [hc]

theorem checkUrl_records_length (o : Oracle) (url title : String) :
    (checkUrl o url title).records.length =
      (if (checkUrl o url title).valid = true then 0 else 1) := by
  unfold checkUrl
  dsimp only
  split
  · rfl
  · split
    · rfl
    · split
      · rfl
      · cases o (normalizeUrl url) <;> simp only [] <;> try rfl
        split <;> rename_i hc <;> simp [hc]

theorem prefixOfB_iff (a b : List Char) : prefixOfB a b = true ↔ a <+: b := by
  induction a generalizing b with
  | nil => simp [prefixOfB]
  | cons x xs ih =>
    cases b with
    | nil => simp [prefixOfB]
    | cons y ys =>
      simp only [prefixOfB, Bool.and_eq_true, beq_iff_eq, ih, List.cons_prefix_cons]

theorem infixOfB_iff (a b : List Char) : infixOfB a b = true ↔ a <:+: b := by
  induction b with
  | nil => simp [infixOfB, List.isEmpty_iff]
  | cons y ys ih =>
    simp only [infixOfB, Bool.or_eq_true, prefixOfB_iff, ih, List.infix_cons_iff]

theorem containsSub_iff (hay needle : String) :
    containsSub hay needle = true ↔ needle.data <:+: hay.data := by
  simp [containsSub, infixOfB_iff]

theorem prefixOfB_append (a b : List Char) : prefixOfB a (a ++ b) = true := by
  simp [prefixOfB_iff, List.prefix_append]

theorem startsWithB_normalizeUrl (url : String) :
    (startsWithB (normalizeUrl url) "http://" ||
      startsWithB (normalizeUrl url) "https://") = true := by
  unfold normalizeUrl
  split
  · apply Bool.or_eq_true_iff.mpr
    right
    simp only [startsWithB, String.data_append]
    exact prefixOfB_append _ _
  · rename_i h
    simp only [Bool.not_eq_true', Bool.not_eq_false] at h
    exact h

theorem normalizeUrl_eq_self (u : String)
    (h : (startsWithB u "http://" || startsWithB u "https://") = true) :
    normalizeUrl u = u := by
  unfold normalizeUrl
  rw [h]
  rfl

theorem normalizeUrl_idem (url : String) :
    normalizeUrl (normalizeUrl url) = normalizeUrl url :=
  normalizeUrl_eq_self _ (startsWithB_normalizeUrl url)

theorem mem_validUrls {o : Oracle} {links : List (String × String)} {x : String}
    (hx : x ∈ validUrls o links) : checkValid o (normalizeUrl x) = true := by
  unfold validUrls at hx
  rcases List.mem_map.mp hx with ⟨p, hp, hpx⟩
  rcases List.mem_filter.mp hp with ⟨_, hval⟩
  rw [checkUrl_valid] at hval
  rw [← hpx]
  exact hval

theorem urlKept_eq_false {o : Oracle} {links : List (String × String)}
    {u : String} (hv : checkValid o (normalizeUrl u) = false) :
    urlKept (validUrls o links) u = false := by
  unfold urlKept
  apply Bool.or_eq_false_iff.mpr
  constructor
  · by_contra hc
    rw [Bool.not_eq_false, List.contains_iff_exists_mem_beq] at hc
    rcases hc with ⟨y, hy, hbeq⟩
    rw [beq_iff_eq] at hbeq
    subst hbeq
    exact absurd (mem_validUrls hy) (by simp [hv])
  · by_contra hc
    rw [Bool.not_eq_false, List.contains_iff_exists_mem_beq] at hc
    rcases hc with ⟨y, hy, hbeq⟩
    rw [beq_iff_eq] at hbeq
    subst hbeq
    have := mem_validUrls hy
    rw [normalizeUrl_idem] at this
    exact absurd this (by simp [hv])

theorem urlKept_eq_true {o : Oracle} {links : List (String × String)}
    {u t : String} (hmem : (u, t) ∈ links)
    (hv : checkValid o (normalizeUrl u) = true) :
    urlKept (validUrls o links) u = true := by
  unfold urlKept
  apply Bool.or_eq_true_iff.mpr
  left
  apply List.contains_iff_exists_mem_beq.mpr
  refine ⟨u, ?_, by simp⟩
  unfold validUrls
  apply List.mem_map.mpr
  refine ⟨(u, t), List.mem_filter.mpr ⟨hmem, ?_⟩, rfl⟩
  rw [checkUrl_valid]
  exact hv

theorem flatten_records_length (o : Oracle) (links : List (String × String)) :
    ((links.map fun p => checkUrl o p.1 p.2).map fun r => r.records).flatten.length
      = links.countP fun p => !(checkUrl o p.1 p.2).valid := by
  induction links with
  | nil => rfl
  | cons p rest ih =>
    simp only [List.map_cons, List.flatten_cons, List.length_append, ih,
      List.countP_cons]
    rw [checkUrl_records_length]
    cases hv : (checkUrl o p.1 p.2).valid <;> simp [hv] <;> omega

theorem collectLinks_removeInvalid (valid : List String) (ns : List Node) :
    collectLinks (removeInvalid valid ns)
      = (collectLinks ns).filter fun p => urlKept valid p.1 := by
  induction ns using collectLinks.induct with
  | case1 => simp [removeInvalid, collectLinks]
  | case2 t u rest ih =>
    simp only [removeInvalid, collectLinks, List.filter_cons]
    by_cases hk : urlKept valid u
    · simp [hk, collectLinks, ih]
    · simp [hk, collectLinks, ih]
  | case3 t cs rest ih1 ih2 =>
    simp only [removeInvalid, collectLinks, ih1, ih2, List.filter_append]

theorem collectLinks_eq_nil_of_no_links {ns : List Node}
    (h : hasLinks ns = false) : collectLinks ns = [] := by
  induction ns using collectLinks.induct with
  | case1 => simp [collectLinks]
  | case2 t u rest ih => simp [hasLinks] at h
  | case3 t cs rest ih1 ih2 =>
    simp only [hasLinks, Bool.or_eq_false_iff] at h
    simp only [collectLinks, ih1 h.1, ih2 h.2, List.nil_append]

theorem collectLinks_compactChildren (ns : List Node) :
    collectLinks (compactChildren ns) = collectLinks ns := by
  induction ns using compactChildren.induct with
  | case1 => simp [compactChildren]
  | case2 t u rest ih => simp only [compactChildren, collectLinks, ih]
  | case3 t cs rest hcond ih =>
    rw [Bool.and_eq_true, Bool.not_eq_true', Bool.not_eq_true'] at hcond
    simp only [compactChildren, hcond.1, hcond.2, Bool.not_false, Bool.and_self,
      if_true, collectLinks, ih]
    rw [collectLinks_eq_nil_of_no_links hcond.1, List.nil_append]
  | case4 t cs rest hcond ih1 ih2 =>
    simp only [compactChildren, collectLinks, ih1, ih2, if_neg hcond]

theorem collectLinks_compactPass (ns : List Node) :
    collectLinks (compactPass ns) = collectLinks ns := by
  induction ns with
  | nil => rfl
  | cons n rest ih =>
    cases n with
    | link t u => simpa [compactPass, collectLinks] using ih
    | folder t cs =>
      simp only [compactPass, List.map_cons, collectLinks] at *
      rw [collectLinks_compactChildren, ih]

theorem collectLinks_loop (k : Nat) (ns : List Node) :
    collectLinks (removeEmptyFoldersLoop k ns).1 = collectLinks ns := by
  induction k generalizing ns with
  | zero => rfl
  | succ k ih =>
    unfold removeEmptyFoldersLoop
    split
    · rfl
    · simpa [collectLinks_compactPass] using ih (compactPass ns)

theorem copyForest_eq (ns : List Node) : copyForest ns = ns := by
  induction ns using copyForest.induct with
  | case1 => simp [copyForest]
  | case2 t u rest ih => simp only [copyForest, ih]
  | case3 t cs rest ih1 ih2 => simp only [copyForest, ih1, ih2]

theorem Pruned.refl (ns : List Node) : Pruned ns ns := by
  induction ns using collectLinks.induct with
  | case1 => exact .nil
  | case2 t u rest ih => exact .keepLink t u ih
  | case3 t cs rest ih1 ih2 => exact .keepFolder t ih1 ih2

theorem Pruned.trans {a b c : List Node} (h1 : Pruned a b) (h2 : Pruned b c) :
    Pruned a c := by
  induction h1 generalizing c with
  | nil =>
    cases h2
    exact .nil
  | drop n h ih => exact .drop n (ih h2)
  | keepLink t u h ih =>
    cases h2 with
    | drop m hx => exact .drop _ (ih hx)
    | keepLink _ _ hx => exact .keepLink t u (ih hx)
  | keepFolder t hcs hl ihcs ihl =>
    cases h2 with
    | drop m hx => exact .drop _ (ihl hx)
    | keepFolder _ hxcs hxl => exact .keepFolder t (ihcs hxcs) (ihl hxl)

theorem pruned_removeInvalid (valid : List String) (ns : List Node) :
    Pruned ns (removeInvalid valid ns) := by
  induction ns using collectLinks.induct with
  | case1 => simpa [removeInvalid] using Pruned.nil
  | case2 t u rest ih =>
    by_cases hk : urlKept valid u
    · simpa [removeInvalid, hk] using Pruned.keepLink t u ih
    · simpa [removeInvalid, hk] using Pruned.drop _ ih
  | case3 t cs rest ih1 ih2 =>
    simpa [removeInvalid] using Pruned.keepFolder t ih1 ih2

theorem pruned_compactChildren (ns : List Node) :
    Pruned ns (compactChildren ns) := by
  induction ns using compactChildren.induct with
  | case1 => simpa [compactChildren] using Pruned.nil
  | case2 t u rest ih => simpa [compactChildren] using Pruned.keepLink t u ih
  | case3 t cs rest hcond ih =>
    simpa [compactChildren, hcond] using Pruned.drop _ ih
  | case4 t cs rest hcond ih1 ih2 =>
    rw [compactChildren.eq_def]
    simp only [if_neg hcond]
    exact Pruned.keepFolder t ih1 ih2

theorem pruned_compactPass (ns : List Node) : Pruned ns (compactPass ns) := by
  induction ns with
  | nil => simpa [compactPass] using Pruned.nil
  | cons n rest ih =>
    cases n with
    | link t u => simpa [compactPass] using Pruned.keepLink t u ih
    | folder t cs =>
      simpa [compactPass] using
        Pruned.keepFolder t (pruned_compactChildren cs) ih

theorem pruned_loop (k : Nat) (ns : List Node) :
    Pruned ns (removeEmptyFoldersLoop k ns).1 := by
  induction k generalizing ns with
  | zero => exact Pruned.refl ns
  | succ k ih =>
    unfold removeEmptyFoldersLoop
    split
    · exact Pruned.refl ns
    · exact Pruned.trans (pruned_compactPass ns) (ih (compactPass ns))

theorem sameTop_refl (n : Node) : sameTop n n := by
  cases n with
  | link t u => exact rfl
  | folder t cs => exact ⟨cs, rfl⟩

theorem sameTop_trans {a b c : Node} (h1 : sameTop a b) (h2 : sameTop b c) :
    sameTop a c := by
  cases a with
  | link t u =>
    unfold sameTop at h1
    subst h1
    exact h2
  | folder t cs =>
    rcases h1 with ⟨cs1, rfl⟩
    rcases h2 with ⟨cs2, rfl⟩
    exact ⟨cs2, rfl⟩

theorem forall2_sameTop_refl (ns : List Node) : List.Forall₂ sameTop ns ns := by
  induction ns with
  | nil => exact .nil
  | cons n rest ih => exact .cons (sameTop_refl n) ih

theorem forall2_sameTop_compactPass (ns : List Node) :
    List.Forall₂ sameTop ns (compactPass ns) := by
  induction ns with
  | nil => exact .nil
  | cons n rest ih =>
    cases n with
    | link t u => exact .cons rfl ih
    | folder t cs => exact .cons ⟨compactChildren cs, rfl⟩ ih

theorem forall2_sameTop_trans {a b c : List Node}
    (h1 : List.Forall₂ sameTop a b) (h2 : List.Forall₂ sameTop b c) :
    List.Forall₂ sameTop a c := by
  induction h1 generalizing c with
  | nil =>
    cases h2
    exact .nil
  | cons hab h1x ih =>
    cases h2 with
    | cons hbc h2x => exact .cons (sameTop_trans hab hbc) (ih h2x)

theorem loop_iterate_count (k : Nat) (ns : List Node) :
    (removeEmptyFoldersLoop k ns).1
        = compactPass^[(removeEmptyFoldersLoop k ns).2] ns
      ∧ (removeEmptyFoldersLoop k ns).2 ≤ k := by
  induction k generalizing ns with
  | zero => exact ⟨rfl, Nat.le_refl 0⟩
  | succ k ih =>
    unfold removeEmptyFoldersLoop
    split
    · exact ⟨rfl, Nat.zero_le _⟩
    · rcases ih (compactPass ns) with ⟨h1, h2⟩
      constructor
      · simpa [Function.iterate_succ_apply] using h1
      · simpa using Nat.succ_le_succ h2

theorem passCount_closed_form (ns : List Node) :
    passCount ns =
      (if candCount ns = 0 then 0
       else if candCount (compactPass ns) = 0 then 1
       else if candCount (compactPass (compactPass ns)) = 0 then 2 else 3) := by
  simp only [passCount, removeEmptyFoldersLoop]
  split_ifs <;> simp_all

theorem no_links_no_sub_iff (cs : List Node) :
    (hasLinks cs = false ∧ hasSubfolder cs = false) ↔ cs = [] := by
  cases cs with
  | nil => simp [hasLinks, hasSubfolder]
  | cons n rest =>
    cases n with
    | link t u => simp [hasLinks]
    | folder t gs => simp [hasSubfolder]

theorem compactChildren_folder_cons (t : String) (cs rest : List Node) :
    compactChildren (.folder t cs :: rest) =
      (if hasLinks cs = false ∧ hasSubfolder cs = false then compactChildren rest
       else .folder t (compactChildren cs) :: compactChildren rest) := by
  rw [compactChildren.eq_def]
  by_cases h : hasLinks cs = false ∧ hasSubfolder cs = false
  · rcases h with ⟨h1, h2⟩
    simp [h1, h2]
  · rw [if_neg h]
    rcases Decidable.not_and_iff_or_not.mp h with hl | hs
    · rw [Bool.not_eq_false] at hl
      simp [hl]
    · rw [Bool.not_eq_false] at hs
      simp [hs]

theorem foldl_poolStep_getElem (f : Nat → CheckResult) (order : List Nat)
    (slots : List (Option CheckResult)) (j : Nat) :
    (order.foldl (poolStep f) slots)[j]? =
      (if j ∈ order ∧ j < slots.length then some (some (f j)) else slots[j]?) := by
  induction order generalizing slots with
  | nil => simp
  | cons i rest ih =>
    simp only [List.foldl_cons]
    rw [ih]
    simp only [poolStep, List.length_set, List.mem_cons]
    by_cases hjr : j ∈ rest
    · by_cases hlen : j < slots.length
      · simp [hjr, hlen]
      · simp only [hjr, or_true, true_and, hlen, if_false]
        rw [List.getElem?_eq_none (Nat.le_of_not_lt hlen),
          List.getElem?_eq_none]
        simpa [List.length_set] using Nat.le_of_not_lt hlen
    · by_cases hji : j = i
      · subst hji
        by_cases hlen : j < slots.length
        · simp [hjr, hlen, List.getElem?_set_self hlen]
        · simp only [hjr, or_false, hlen, and_false, if_false, and_true,
            if_pos rfl]
          rw [List.getElem?_set]
          simp only [if_pos rfl, if_neg hlen]
          rw [List.getElem?_eq_none (Nat.le_of_not_lt hlen)]
          simp
      · simp only [hjr, hji, false_or, false_and, if_false]
        rw [List.getElem?_set_ne (fun h => hji h.symm)]

theorem validateAll_eq_map (w : Nat) (order : List Nat) (o : Oracle)
    (reqs : List (String × String))
    (hcover : ∀ i, i < reqs.length → i ∈ order) :
    validateAll w order o reqs
      = reqs.map fun p => some (checkUrl o p.1 p.2) := by
  apply List.ext_getElem?
  intro j
  unfold validateAll poolRun
  rw [foldl_poolStep_getElem]
  simp only [List.length_replicate]
  by_cases hj : j < reqs.length
  · simp only [hcover j hj, hj, and_self, if_true, List.getElem?_map,
      List.getElem?_eq_getElem hj, Option.map_some]
    rw [List.getD_eq_getElem?_getD, List.getElem?_eq_getElem hj]
    rfl
  · simp only [hj, and_false, if_false]
    have h1 : (List.replicate reqs.length (none : Option CheckResult)).length ≤ j := by
      simpa using Nat.le_of_not_lt hj
    have h2 : (List.map (fun p => some (checkUrl o p.1 p.2)) reqs).length ≤ j := by
      simpa using Nat.le_of_not_lt hj
    rw [List.getElem?_eq_none h1, List.getElem?_eq_none h2]


theorem splitDots_ne_nil (cs : List Char) : splitDots cs ≠ [] := by
  cases cs with
  | nil => simp [splitDots]
  | cons c rest =>
    cases h : splitDots rest with
    | nil =>
      simp only [splitDots, h]
      split <;> simp
    | cons p ps =>
      simp only [splitDots, h]
      split <;> simp

theorem flatten_splitDots (cs : List Char) :
    (splitDots cs).flatten = cs.filter notDot := by
  induction cs with
  | nil => simp [splitDots, notDot]
  | cons c rest ih =>
    cases h : splitDots rest with
    | nil => exact absurd h (splitDots_ne_nil rest)
    | cons p ps =>
      rw [h] at ih
      by_cases hc : c = '.'
      · subst hc
        have hd : notDot '.' = false := by decide
        simp only [splitDots, h, if_pos rfl]
        simpa [List.filter_cons, hd] using ih
      · have hcb : notDot c = true := by simp [notDot, hc]
        simp only [splitDots, h, if_neg hc]
        simpa [List.filter_cons, hcb] using ih

theorem parseOctet_digits {cs : List Char} {n : Nat}
    (h : parseOctet cs = some n) :
    cs ≠ [] ∧ cs.all isAsciiDigit = true := by
  unfold parseOctet at h
  split at h
  · exact absurd h (by simp)
  · split at h
    · exact absurd h (by simp)
    · split at h
      · exact absurd h (by simp)
      · split at h
        · exact absurd h (by simp)
        · rename_i hne _ hdig _
          refine ⟨by simpa [List.isEmpty_iff] using hne, ?_⟩
          simpa using hdig

theorem parseIPv4_digit_guard {s : String} {q : Nat × Nat × Nat × Nat}
    (h : parseIPv4 s = some q) :
    (!(s.data.filter notDot).isEmpty
      && (s.data.filter notDot).all isAsciiDigit) = true := by
  unfold parseIPv4 at h
  split at h
  · rename_i a b c d hsplit
    split at h
    · rename_i w x y z ha hb hc hd
      have hfl : s.data.filter notDot = a ++ b ++ c ++ d := by
        rw [← flatten_splitDots, hsplit]
        simp [List.flatten]
      rcases parseOctet_digits ha with ⟨hane, hadig⟩
      rcases parseOctet_digits hb with ⟨_, hbdig⟩
      rcases parseOctet_digits hc with ⟨_, hcdig⟩
      rcases parseOctet_digits hd with ⟨_, hddig⟩
      rw [hfl]
      apply Bool.and_eq_true_iff.mpr
      constructor
      · cases a with
        | nil => exact absurd rfl hane
        | cons x xs => simp
      · simp only [List.all_append, hadig, hbdig, hcdig, hddig, Bool.and_self]
    · exact absurd h (by simp)
  · exact absurd h (by simp)

theorem mem_data_of_containsSub {hay needle : String} {c : Char}
    (h : containsSub hay needle = true) (hc : c ∈ needle.data) :
    c ∈ hay.data :=
  ((containsSub_iff hay needle).mp h).subset hc

theorem containsSub_local_of_localhost {hay : String}
    (h : containsSub hay "localhost" = true) :
    containsSub hay "local" = true := by
  rw [containsSub_iff] at h ⊢
  exact List.IsInfix.trans ⟨[], ['h', 'o', 's', 't'], by decide⟩ h

theorem digit_guard_false_of_localhost {domain : String}
    (h : containsSub domain "localhost" = true) :
    (domain.data.filter notDot).all isAsciiDigit = false := by
  have hl : 'l' ∈ domain.data := mem_data_of_containsSub h (by decide)
  rw [Bool.eq_false_iff]
  intro hall
  have hdig : isAsciiDigit 'l' = true := by
    have hmem : 'l' ∈ domain.data.filter notDot :=
      List.mem_filter.mpr ⟨hl, by decide⟩
    exact List.all_eq_true.mp hall _ hmem
  exact absurd hdig (by decide)

theorem unsafeKeywordHit_of_local {domain : String}
    (h : containsSub domain "local" = true) :
    unsafeKeywordHit domain = true := by
  unfold unsafeKeywordHit
  apply List.any_eq_true.mpr
  refine ⟨"local", ?_, h⟩
  simp [unsafeDomains]

theorem isUnsafeDomain_of_private {domain : String} {q : Nat × Nat × Nat × Nat}
    (hp : parseIPv4 domain = some q) (hpriv : ipv4IsPrivate q = true) :
    isUnsafeDomain domain = true := by
  unfold isUnsafeDomain
  split
  · rfl
  · dsimp only
    rw [parseIPv4_digit_guard hp]
    simp only [if_true, hp]
    simp [unsafeIPv4, hpriv]

theorem isUnsafeDomain_of_localhost_sub {domain : String}
    (h : containsSub domain "localhost" = true) :
    isUnsafeDomain domain = true := by
  unfold isUnsafeDomain
  split
  · rfl
  · dsimp only
    have hguard : (!(domain.data.filter notDot).isEmpty
        && (domain.data.filter notDot).all isAsciiDigit) = false := by
      rw [digit_guard_false_of_localhost h, Bool.and_false]
    rw [hguard]
    simp only [Bool.false_eq_true, if_false]
    exact unsafeKeywordHit_of_local (containsSub_local_of_localhost h)

theorem checkValid_eq_false_of_unsafe {o : Oracle} {u : String}
    (hu : isUnsafeDomain (hostOf u) = true) : checkValid o u = false := by
  unfold checkValid
  split
  · rfl
  · simp [hu]

theorem hasLinkWithUrl_remove {o : Oracle} {url : String}
    (hv : checkValid o (normalizeUrl url) = false) (ns : List Node) :
    hasLinkWithUrl url (processBookmarks false o ns).2.1 = false := by
  unfold processBookmarks
  simp only [Bool.false_eq_true, if_false, copyForest_eq]
  by_cases hempty : (collectLinks ns).isEmpty
  · simp only [hempty, if_true]
    unfold hasLinkWithUrl
    rw [List.isEmpty_iff.mp hempty]
    rfl
  · simp only [hempty, Bool.false_eq_true, if_false]
    unfold hasLinkWithUrl removeEmptyFolders
    rw [collectLinks_loop, collectLinks_removeInvalid]
    apply List.any_eq_false.mpr
    intro p hp
    rcases List.mem_filter.mp hp with ⟨hmem, hkept⟩
    intro hbeq
    rw [beq_iff_eq] at hbeq
    rw [hbeq] at hkept
    rw [urlKept_eq_false hv] at hkept
    exact Bool.false_ne_true hkept


theorem countP_not_add_countP {α : Type} (f : α → Bool) (l : List α) :
    l.countP (fun a => !f a) + l.countP f = l.length := by
  induction l with
  | nil => rfl
  | cons a rest ih =>
    simp only [List.countP_cons, List.length_cons]
    cases hb : f a <;> simp [hb] <;> omega

theorem forall2_sameTop_loop (k : Nat) (ns : List Node) :
    List.Forall₂ sameTop ns (removeEmptyFoldersLoop k ns).1 := by
  induction k generalizing ns with
  | zero => exact forall2_sameTop_refl ns
  | succ k ih =>
    unfold removeEmptyFoldersLoop
    split
    · exact forall2_sameTop_refl ns
    · exact forall2_sameTop_trans (forall2_sameTop_compactPass ns)
        (ih (compactPass ns))

/-- Claim C4: for every input URL and title, `check_url` always returns a
(url, bool) pair and never propagates an exception to its caller (the
embedding is a total function, and even the unclassified-exception outcome
is mapped to an invalid verdict); an invalid verdict always comes with
exactly one recorded deletion reason, a valid verdict with none. -/
theorem claim_C4 (o : Oracle) (url title : String) :
    (checkUrl o url title).url = normalizeUrl url
    ∧ (checkUrl o url title).records.length
        = (if (checkUrl o url title).valid = true then 0 else 1)
    ∧ (∀ msg, o (normalizeUrl url) = .unexpectedError msg →
        (checkUrl o url title).valid = false) := by
  refine ⟨checkUrl_url o url title, checkUrl_records_length o url title, ?_⟩
  intro msg hmsg
  rw [checkUrl_valid]
  unfold checkValid
  split
  · rfl
  · split
    · rfl
    · split
      · rfl
      · rw [hmsg]

/-- Witness for C4 at a concrete input: an unclassified exception outcome
becomes an invalid verdict. -/
theorem claim_C4_witness :
    (checkUrl (fun _ => ProbeOutcome.unexpectedError "boom") "http://ok.org" "t").valid
      = false :=
  (claim_C4 (fun _ => ProbeOutcome.unexpectedError "boom") "http://ok.org" "t").2.2
    "boom" rfl

/-- Claim C2: a link whose host (after the `https://` auto-prefix and port
strip) is `127.0.0.1`, a private IPv4 literal, or contains the string
`localhost` is judged invalid by `check_url` for every probe oracle (the
network is never consulted for the verdict), and no link carrying that URL
survives in the output of `process_bookmarks`. -/
theorem claim_C2 (o : Oracle) (url title : String)
    (h : hostOf (normalizeUrl url) = "127.0.0.1"
       ∨ (∃ q, parseIPv4 (hostOf (normalizeUrl url)) = some q
            ∧ ipv4IsPrivate q = true)
       ∨ containsSub (hostOf (normalizeUrl url)) "localhost" = true) :
    (checkUrl o url title).valid = false
    ∧ ∀ ns, hasLinkWithUrl url (processBookmarks false o ns).2.1 = false := by
  have hunsafe : isUnsafeDomain (hostOf (normalizeUrl url)) = true := by
    rcases h with h1 | ⟨q, hp, hpriv⟩ | h3
    · rw [h1]
      decide
    · exact isUnsafeDomain_of_private hp hpriv
    · exact isUnsafeDomain_of_localhost_sub h3
  have hv : checkValid o (normalizeUrl url) = false :=
    checkValid_eq_false_of_unsafe hunsafe
  refine ⟨?_, fun ns => hasLinkWithUrl_remove hv ns⟩
  rw [checkUrl_valid]
  exact hv

/-- Witness for C2: a reachable (status 200) link to a private 10.x address
is still judged invalid and is removed from a concrete tree. -/
theorem claim_C2_witness :
    (checkUrl (statusOracle 200) "http://10.0.0.5/x" "t").valid = false
    ∧ hasLinkWithUrl "http://10.0.0.5/x"
        (processBookmarks false (statusOracle 200)
          [Node.folder "Bar" [Node.link "t" "http://10.0.0.5/x"]]).2.1 = false := by
  have h := claim_C2 (statusOracle 200) "http://10.0.0.5/x" "t"
    (Or.inr (Or.inl ⟨(10, 0, 0, 5), by decide, by decide⟩))
  exact ⟨h.1, h.2 _⟩

/-- Claim C6: after a (non-excepting) run of the cleaning pipeline, the
number of accumulated deletion records equals the number of link nodes
removed from the tree: records + surviving links = original links. -/
theorem claim_C6 (o : Oracle) (ns : List Node) :
    ((processBookmarks false o ns).2.2).length
      + (collectLinks (processBookmarks false o ns).2.1).length
      = (collectLinks ns).length := by
  unfold processBookmarks
  simp only [Bool.false_eq_true, if_false, copyForest_eq]
  by_cases hempty : (collectLinks ns).isEmpty
  · simp only [hempty, if_true]
    rw [List.isEmpty_iff.mp hempty]
    rfl
  · simp only [hempty, Bool.false_eq_true, if_false]
    unfold removeEmptyFolders
    rw [flatten_records_length, collectLinks_loop, collectLinks_removeInvalid,
      ← List.countP_eq_length_filter]
    have hcongr :
        List.countP (fun p => urlKept (validUrls o (collectLinks ns)) p.1)
            (collectLinks ns)
          = List.countP (fun p => (checkUrl o p.1 p.2).valid) (collectLinks ns) := by
      apply List.countP_congr
      intro p hp
      rw [checkUrl_valid]
      by_cases hv : checkValid o (normalizeUrl p.1) = true
      · rw [urlKept_eq_true (t := p.2) (by simpa using hp) hv, hv]
      · rw [Bool.not_eq_true] at hv
        rw [urlKept_eq_false hv, hv]
    have h2 := countP_not_add_countP (fun p => (checkUrl o p.1 p.2).valid)
      (collectLinks ns)
    beta_reduce at h2
    omega

/-- Claim C9: for every folder of the input tree, the children surviving
cleaning keep their original relative order; the run only deletes nodes,
never reorders or adds siblings (stated via the `Pruned` relation between
the input forest and the output forest of `process_bookmarks`). -/
theorem claim_C9 (failure : Bool) (o : Oracle) (ns : List Node) :
    Pruned ns (processBookmarks failure o ns).2.1 := by
  unfold processBookmarks
  cases failure with
  | true => simpa using Pruned.refl ns
  | false =>
    simp only [Bool.false_eq_true, if_false, copyForest_eq]
    by_cases hempty : (collectLinks ns).isEmpty
    · simpa [hempty] using Pruned.refl ns
    · simp only [hempty, Bool.false_eq_true, if_false]
      unfold removeEmptyFolders
      exact Pruned.trans (pruned_removeInvalid _ ns) (pruned_loop 3 _)

/-- Claim C5: a top-level anchor entry of the tree is never removed by
empty-folder compaction: after the source's three-pass loop, and in fact
after any number of passes, the top level has the same length and titles,
position by position (folders may merely lose children, even all of them). -/
theorem claim_C5 (ns : List Node) :
    List.Forall₂ sameTop ns (removeEmptyFolders ns)
    ∧ ∀ k, List.Forall₂ sameTop ns (removeEmptyFoldersLoop k ns).1 :=
  ⟨forall2_sameTop_loop 3 ns, fun k => forall2_sameTop_loop k ns⟩

/-- Claim C10: `process_bookmarks` never mutates the document object passed
to it (the first component of the model tracks that object); on the
exception path the original, unmodified input is returned, and on success
the returned tree is the cleaning pipeline applied to the fresh copy of the
input. -/
theorem claim_C10 (failure : Bool) (o : Oracle) (soup : List Node) :
    (processBookmarks failure o soup).1 = soup
    ∧ (failure = true → (processBookmarks failure o soup).2.1 = soup)
    ∧ (failure = false → (processBookmarks failure o soup).2.1
        = (if (collectLinks soup).isEmpty then soup
           else removeEmptyFolders
             (removeInvalid (validUrls o (collectLinks soup)) soup))) := by
  cases failure with
  | true =>
    refine ⟨by simp [processBookmarks], fun _ => by simp [processBookmarks],
      fun hf => absurd hf (by simp)⟩
  | false =>
    refine ⟨?_, fun ht => absurd ht (by simp), fun _ => ?_⟩
    · unfold processBookmarks
      simp only [Bool.false_eq_true, if_false]
      split <;> rfl
    · unfold processBookmarks
      simp only [Bool.false_eq_true, if_false, copyForest_eq]
      by_cases hempty : (collectLinks soup).isEmpty
      · simp [hempty]
      · simp [hempty]

/-- Witness for C10 at a concrete input: the exception path returns the
original tree. -/
theorem claim_C10_witness :
    (processBookmarks true (statusOracle 200) [Node.link "t" "https://ok.org"]).2.1
      = [Node.link "t" "https://ok.org"] :=
  (claim_C10 true (statusOracle 200) [Node.link "t" "https://ok.org"]).2.1 rfl

/-- Counterexample to claim C7 as stated: with an unreadable input file
(`open` raises, modelled by the `Except.error`), the run does not exit
non-zero; `clean_bookmarks` swallows the exception (source lines 427-431),
`main` returns normally, and the process exit code is 0. -/
theorem claim_C7_counterexample :
    processExitCode
      (Except.error "[Errno 2] No such file or directory: 'bookmarks.html'")
      okParse false (statusOracle 200) = 0 := rfl

/-- Amended claim C7: the process exits 0 in every case, including
unreadable input and unparseable documents; a file-level failure is caught
inside `clean_bookmarks`, which then writes no output file, while a run
whose links merely fail probing completes the pipeline and exits 0 with its
removal report. -/
theorem claim_C7_amended (readResult : Except String String)
    (parseDoc : String → Except String (List Node)) (failure : Bool)
    (o : Oracle) :
    processExitCode readResult parseDoc failure o = 0
    ∧ (∀ e, readResult = .error e →
        cleanBookmarks readResult parseDoc failure o = none)
    ∧ (∀ content tree, readResult = .ok content → parseDoc content = .ok tree →
        cleanBookmarks readResult parseDoc failure o
          = some ((processBookmarks failure o tree).2.1,
              (processBookmarks failure o tree).2.2)) := by
  refine ⟨rfl, ?_, ?_⟩
  · intro e he
    subst he
    rfl
  · intro content tree h1 h2
    subst h1
    unfold cleanBookmarks cleanBody
    dsimp only
    rw [h2]

/-- Witness for the amended C7 at a concrete unreadable-input run: exit
code 0 and no output. -/
theorem claim_C7_amended_witness :
    processExitCode (Except.error "cannot read") okParse false
        (statusOracle 200) = 0
    ∧ cleanBookmarks (Except.error "cannot read") okParse false
        (statusOracle 200) = none :=
  ⟨(claim_C7_amended (Except.error "cannot read") okParse false
      (statusOracle 200)).1,
   (claim_C7_amended (Except.error "cannot read") okParse false
      (statusOracle 200)).2.1 "cannot read" rfl⟩

/-- Counterexample to claim C8 as stated: in the tree `A ⊃ F ⊃ G` (anchor
`A`, folder `F` whose only content is the childless folder `G`), folder `F`
has no link descendants and no non-empty subfolder, so the claim says the
first pass removes it; but one pass of the source's loop removes only `G`
and leaves `F` in place (a folder with any direct subfolder, even an empty
one, survives the pass).  Moreover, with a candidate folder that contains a
link (so that no pass ever removes anything), the loop still runs all 3
passes instead of stopping after the first removal-free pass. -/
theorem claim_C8_counterexample :
    claimPassRemovable [Node.folder "G" []] = true
    ∧ compactPass [Node.folder "A" [Node.folder "F" [Node.folder "G" []]]]
        = [Node.folder "A" [Node.folder "F" []]]
    ∧ passCount [Node.folder "A" [Node.folder "F" [Node.link "t" "u"]]] = 3 := by
  refine ⟨?_, ?_, ?_⟩
  · simp [claimPassRemovable, hasLinks]
  · simp [compactPass, compactChildren, hasLinks, hasSubfolder]
  · rw [passCount_closed_form]
    simp [candCount, foldersIn, compactPass, compactChildren, hasLinks,
      hasSubfolder]

/-- Amended claim C8: empty-folder compaction runs at most 3 passes and the
result is the pass function iterated `passCount` times; each pass removes
exactly the non-anchor candidate folders that at the start of the pass have
no link descendants and no subfolder at all, a condition equivalent to
having zero children (so a chain of nested empty folders loses one level
per pass); the loop stops early only when no candidate folders remain, not
when a pass merely removes nothing. -/
theorem claim_C8_amended (ns : List Node) :
    passCount ns ≤ 3
    ∧ removeEmptyFolders ns = compactPass^[passCount ns] ns
    ∧ (∀ t cs rest, compactChildren (Node.folder t cs :: rest)
        = (if hasLinks cs = false ∧ hasSubfolder cs = false
           then compactChildren rest
           else Node.folder t (compactChildren cs) :: compactChildren rest))
    ∧ (∀ cs, (hasLinks cs = false ∧ hasSubfolder cs = false) ↔ cs = [])
    ∧ passCount ns
        = (if candCount ns = 0 then 0
           else if candCount (compactPass ns) = 0 then 1
           else if candCount (compactPass (compactPass ns)) = 0 then 2 else 3) :=
  ⟨(loop_iterate_count 3 ns).2, (loop_iterate_count 3 ns).1,
    fun t cs rest => compactChildren_folder_cons t cs rest,
    fun cs => no_links_no_sub_iff cs, passCount_closed_form ns⟩

/-- Claim C3: for every request sequence and any two worker-pool sizes,
given identical per-URL probe outcomes, the concurrent validation returns
the same verdict sequence for every completion order the pool may produce,
and the verdict in slot `i` is the probe of request `i`. -/
theorem claim_C3 (o : Oracle) (reqs : List (String × String)) (w1 w2 : Nat)
    (order1 order2 : List Nat)
    (h1 : ∀ i, i < reqs.length → i ∈ order1)
    (h2 : ∀ i, i < reqs.length → i ∈ order2) :
    validateAll w1 order1 o reqs = validateAll w2 order2 o reqs
    ∧ ∀ i (hi : i < reqs.length),
        (validateAll w1 order1 o reqs)[i]?
          = some (some (checkUrl o (reqs.get ⟨i, hi⟩).1 (reqs.get ⟨i, hi⟩).2)) := by
  constructor
  · rw [validateAll_eq_map w1 order1 o reqs h1,
      validateAll_eq_map w2 order2 o reqs h2]
  · intro i hi
    rw [validateAll_eq_map w1 order1 o reqs h1, List.getElem?_map,
      List.getElem?_eq_getElem hi]
    rfl

/-- Witness for C3: three requests, worker counts 1 and 100, two different
completion orders; the verdict sequences coincide and slot 1 holds the
probe of request 1. -/
theorem claim_C3_witness :
    validateAll 1 [0, 1, 2] (statusOracle 200)
        [("a.org", "A"), ("b.org", "B"), ("c.org", "C")]
      = validateAll 100 [2, 0, 1] (statusOracle 200)
        [("a.org", "A"), ("b.org", "B"), ("c.org", "C")]
    ∧ (validateAll 1 [0, 1, 2] (statusOracle 200)
        [("a.org", "A"), ("b.org", "B"), ("c.org", "C")])[1]?
      = some (some (checkUrl (statusOracle 200) "b.org" "B")) := by
  have h := claim_C3 (statusOracle 200)
    [("a.org", "A"), ("b.org", "B"), ("c.org", "C")] 1 100 [0, 1, 2] [2, 0, 1]
    (by decide) (by decide)
  exact ⟨h.1, h.2 1 (by decide)⟩

/-- Claim C1: `check_url` applies its checks in the claimed fixed order
(prefix, format, safety, prohibited content, then the GET with the
`[200, 400)` window): whenever the claim's own verdict function
`claimVerdict` assigns the probed URL `u` and verdict `v`, the embedding of
`check_url` returns `u`, is valid exactly when `v` is `none`, and on an
invalid verdict records exactly the deletion reason corresponding to `v`. -/
theorem claim_C1 (o : Oracle) (url title u : String) (v : Option FailureReason)
    (h : claimVerdict o url = some (u, v)) :
    (checkUrl o url title).url = u
    ∧ ((checkUrl o url title).valid = true ↔ v = none)
    ∧ ∀ r, v = some r →
        (checkUrl o url title).records = [⟨title, u, reasonText r⟩] := by
  have hnorm :
      (if !(startsWithB url "http://" || startsWithB url "https://")
        then "https://" ++ url else url) = normalizeUrl url := rfl
  unfold claimVerdict at h
  dsimp only at h
  rw [hnorm] at h
  unfold checkUrl
  dsimp only
  split at h
  case isTrue hc =>
    rw [if_pos hc]
    rw [Option.some.injEq, Prod.mk.injEq] at h
    obtain ⟨h1, h2⟩ := h
    subst h1
    subst h2
    refine ⟨rfl, by simp, ?_⟩
    intro r hr
    injection hr with hr
    subst hr
    rfl
  case isFalse hc =>
    rw [if_neg hc]
    split at h
    case isTrue hs =>
      rw [if_pos hs]
      rw [Option.some.injEq, Prod.mk.injEq] at h
      obtain ⟨h1, h2⟩ := h
      subst h1
      subst h2
      refine ⟨rfl, by simp, ?_⟩
      intro r hr
      injection hr with hr
      subst hr
      rfl
    case isFalse hs =>
      rw [if_neg hs]
      split at h
      case isTrue hk =>
        rw [if_pos hk]
        rw [Option.some.injEq, Prod.mk.injEq] at h
        obtain ⟨h1, h2⟩ := h
        subst h1
        subst h2
        refine ⟨rfl, by simp, ?_⟩
        intro r hr
        injection hr with hr
        subst hr
        rfl
      case isFalse hk =>
        rw [if_neg hk]
        cases ho : o (normalizeUrl url) with
        | status code =>
          rw [ho] at h
          dsimp only at h
          dsimp only
          split at h
          case isTrue hr =>
            rw [if_pos hr]
            rw [Option.some.injEq, Prod.mk.injEq] at h
            obtain ⟨h1, h2⟩ := h
            subst h1
            subst h2
            exact ⟨rfl, by simp, fun r hr2 => by cases hr2⟩
          case isFalse hr =>
            rw [if_neg hr]
            rw [Option.some.injEq, Prod.mk.injEq] at h
            obtain ⟨h1, h2⟩ := h
            subst h1
            subst h2
            refine ⟨rfl, by simp, ?_⟩
            intro r hr2
            injection hr2 with hr2
            subst hr2
            rfl
        | timeout =>
          rw [ho] at h
          simp at h
        | tooManyRedirects =>
          rw [ho] at h
          simp at h
        | sslError =>
          rw [ho] at h
          simp at h
        | connectionError =>
          rw [ho] at h
          simp at h
        | requestException msg =>
          rw [ho] at h
          simp at h
        | unexpectedError msg =>
          rw [ho] at h
          simp at h

/-- Witness for C1 at a concrete input: a prefix-less URL probed with a 404
status is returned with the `https://` prefix, judged invalid, and recorded
with the bad-status reason. -/
theorem claim_C1_witness :
    (checkUrl (statusOracle 404) "ok.org" "t").url = "https://ok.org"
    ∧ ((checkUrl (statusOracle 404) "ok.org" "t").valid = true
        ↔ (some (FailureReason.badStatus 404) : Option FailureReason) = none)
    ∧ (checkUrl (statusOracle 404) "ok.org" "t").records
        = [⟨"t", "https://ok.org", reasonText (FailureReason.badStatus 404)⟩] := by
  have h := claim_C1 (statusOracle 404) "ok.org" "t" "https://ok.org"
    (some (FailureReason.badStatus 404)) (by decide)
  exact ⟨h.1, h.2.1, h.2.2 (FailureReason.badStatus 404) rfl⟩
